import Mathlib

/-!
Verification of the data-access layer in `src/data_controller/mongo.py`
(HAHA-NO-UR). The module manages three MongoDB collections: a card
catalog (`cards`, keyed by integer card id), per-user albums (`users`),
and feedback. We embed the document model and the operations the claims
concern, and prove or refute each claim.

Modelling conventions:
* A MongoDB document is an association list from `String` field names to
  values (`Doc`); Python dicts have unique keys, which appears as the
  `Doc.NodupKeys` hypothesis where needed. Field values occurring in this
  module are integers and strings (`Value`).
* A collection is a list of documents (insertion order); MongoDB's
  `update` / `update_one` affect the first matching document, `find_one`
  returns the first match.
* Fallible Python code (raising `KeyError` / `AttributeError` /
  `DuplicateKeyError`) is embedded returning `Option`, or with an
  explicit error flag where the store state at raise time matters.
* The wall clock `int(round(time.time() * 1000))` is an oracle parameter
  `clock : Nat → Int` giving the millisecond timestamp observed at the
  i-th loop iteration.
* `$sample` (unweighted random sampling without replacement) is an
  oracle parameter `sample`; its contract `SampleSpec` states that it
  returns a subpermutation of the pool of size `min count poolsize`.
-/

/-- Field values occurring in documents of this module: integers
(ids, counts, timestamps) and strings (names, image urls). -/
inductive Value where
  | vInt : Int → Value
  | vStr : String → Value
deriving DecidableEq, Repr

/-- A MongoDB / Python-dict document: association list from field names
to values, first occurrence wins on lookup. -/
abbrev Doc := List (String × Value)

/-- `d[key]` lookup: first binding of `key`. -/
def Doc.getField : Doc → String → Option Value
  | [], _ => none
  | (k, v) :: rest, key => if k = key then some v else Doc.getField rest key

/-- `d[key] = v`: overwrite the binding in place if present (Python dicts
keep the key's position), else append the new binding at the end. -/
def Doc.setField : Doc → String → Value → Doc
  | [], key, v => [(key, v)]
  | (k, w) :: rest, key, v =>
    if k = key then (key, v) :: rest else (k, w) :: Doc.setField rest key v

/-- `del d[key]`: drop the (first) binding of `key`. -/
def Doc.removeField : Doc → String → Doc
  | [], _ => []
  | (k, v) :: rest, key =>
    if k = key then rest else (k, v) :: Doc.removeField rest key

/-- The field names of a document, in order. -/
def Doc.keys (d : Doc) : List String := d.map Prod.fst

/-- A well-formed document has no repeated field name (true of every
Python dict and every MongoDB document). -/
def Doc.NodupKeys (d : Doc) : Prop := d.keys.Nodup

/-- MongoDB's `$set` update operator: every field of `s` overwrites the
corresponding field of `d` (creating it if absent); fields of `d` not
named in `s` are left untouched. -/
def Doc.applySet (d s : Doc) : Doc :=
  s.foldl (fun acc kv => acc.setField kv.1 kv.2) d

/-- The `cards` collection. -/
abbrev CardsDB := List Doc

/-- `find_one {_id: idv}` on the card collection: first document whose
`_id` equals `idv`. -/
def findCard : CardsDB → Value → Option Doc
  | [], _ => none
  | d :: rest, idv =>
    if d.getField "_id" = some idv then some d else findCard rest idv

/-- MongoDB `update({'_id': idv}, {'$set': setDoc}, upsert=True)`:
apply `$set` to the first document with `_id = idv`; if none matches,
insert a new document built from the query's equality field `_id` plus
the `$set` fields. -/
def update_set_upsert : CardsDB → Value → Doc → CardsDB
  | [], idv, setDoc => [Doc.applySet [("_id", idv)] setDoc]
  | d :: rest, idv, setDoc =>
    if d.getField "_id" = some idv then Doc.applySet d setDoc :: rest
    else d :: update_set_upsert rest idv setDoc

/-- `CardController.upsert_card`, returning the collection after the call
together with the caller-visible value of the `card` argument. The source
first rebinds `card` to `copy.deepcopy(card)`, so the key rewrite
(`card['_id'] = card['id']; del card['id']`) mutates the copy only and
the caller's dictionary is returned unchanged. A card without an `id`
field raises `KeyError` (`none`). -/
def upsert_card_run (coll : CardsDB) (card : Doc) : Option (CardsDB × Doc) :=
  let localCard := card
  match localCard.getField "id" with
  | none => none
  | some idv =>
    let localCard := (localCard.setField "_id" idv).removeField "id"
    some (update_set_upsert coll idv localCard, card)

/-- `CardController.upsert_card`, collection part only. -/
def upsert_card (coll : CardsDB) (card : Doc) : Option CardsDB :=
  (upsert_card_run coll card).map Prod.fst

/-- Contract of MongoDB's `$sample` aggregation stage: an unweighted
random sample without replacement is some subpermutation of the pool
whose length is `min requested poolsize`; which one is the sampler's
choice, so operations take the sampler as an oracle argument. -/
def SampleSpec (sample : List Doc → Nat → List Doc) : Prop :=
  ∀ pool n, List.Subperm (sample pool n) pool ∧
    (sample pool n).length = min n pool.length

/-- One admissible sampler: take the first `n` pool elements. -/
def sampleByTake (pool : List Doc) (n : Nat) : List Doc := pool.take n

/-- `CardController.get_random_cards`: aggregate
`[{'$match': filters}, {'$sample': {'size': count}}]` and then read the
cursor with `to_list(length=100)`, which truncates the result to at most
100 documents. The `$match` stage is embedded as the predicate its
filter document denotes. -/
def get_random_cards (coll : CardsDB) (filter : Doc → Bool) (count : Nat)
    (sample : List Doc → Nat → List Doc) : List Doc :=
  (sample (coll.filter filter) count).take 100

/-! ### User repository model

Album entries only ever hold the four integer fields written by
`add_to_user_album`, so they are embedded as a record; the field names
match the string keys of the `new_card` dict literal in the source
(including its spelling `time_aquired`). Card ids are the integer
catalog keys (spec section 3), so the card dicts passed to
`add_to_user_album` are represented by the one field the source reads
from them, their integer `_id`. -/

/-- One element of a user's `album` array. -/
structure AlbumEntry where
  id : Int
  unidolized_count : Int
  idolized_count : Int
  time_aquired : Int
deriving DecidableEq, Repr

/-- The raw document pushed for a newly acquired card: the `new_card`
dict literal in `UserController.add_to_user_album`, with `now` standing
for `int(round(time.time() * 1000))`. -/
def new_card_doc (cid now : Int) : Doc :=
  [("id", Value.vInt cid),
   ("unidolized_count", Value.vInt 1),
   ("idolized_count", Value.vInt 0),
   ("time_aquired", Value.vInt now)]

/-- The document an `AlbumEntry` denotes in the store. -/
def AlbumEntry.toDoc (e : AlbumEntry) : Doc :=
  [("id", Value.vInt e.id),
   ("unidolized_count", Value.vInt e.unidolized_count),
   ("idolized_count", Value.vInt e.idolized_count),
   ("time_aquired", Value.vInt e.time_aquired)]

/-- A document of the `users` collection: `{_id: <string>, album: [...]}`. -/
structure UserDoc where
  _id : String
  album : List AlbumEntry
deriving DecidableEq, Repr

/-- The `users` collection. -/
abbrev UsersDB := List UserDoc

/-- `UserController.find_user`: `find_one({'_id': user_id})`, the first
document with the given id. -/
def find_user : UsersDB → String → Option UserDoc
  | [], _ => none
  | u :: rest, uid => if u._id = uid then some u else find_user rest uid

/-- `UserController.insert_user`: `insert_one({'_id': user_id, 'album': []})`;
raises `DuplicateKeyError` (`none`) if the id is already present. -/
def insert_user (db : UsersDB) (uid : String) : Option UsersDB :=
  match find_user db uid with
  | none => some (db ++ [⟨uid, []⟩])
  | some _ => none

/-- `UserController.get_user_album`: the user's album, or `[]` when
`find_user` returns no document. -/
def get_user_album (db : UsersDB) (uid : String) : List AlbumEntry :=
  match find_user db uid with
  | none => []
  | some u => u.album

/-- First album element with the given card id (the element selected by
the `{'$elemMatch': {'id': card_id}}` projection). -/
def findEntry : List AlbumEntry → Int → Option AlbumEntry
  | [], _ => none
  | e :: rest, cid => if e.id = cid then some e else findEntry rest cid

/-- `UserController.get_card_from_album`: project the user's album onto
its first element matching `card_id`; `None` when the user does not
exist or no element matches (the projected result then has no `album`
key). -/
def get_card_from_album (db : UsersDB) (uid : String) (cid : Int) :
    Option AlbumEntry :=
  match find_user db uid with
  | none => none
  | some u => findEntry u.album cid

/-- `UserController._user_has_card`: `find_one` with the `$elemMatch`
projection, then `len(search.keys()) > 1`. The projected document always
has the `_id` key and has the `album` key exactly when some album
element matches, so the test means "a matching element exists". When the
user does not exist, `find_one` returns `None` and `None.keys()` raises
`AttributeError` (`none`). -/
def user_has_card (db : UsersDB) (uid : String) (cid : Int) : Option Bool :=
  match find_user db uid with
  | none => none
  | some u => some (findEntry u.album cid).isSome

/-- A positional (`album.$`) update: rewrite the first album element
matching the queried card id with `g`. -/
def updateFirstEntry : List AlbumEntry → Int → (AlbumEntry → AlbumEntry) →
    List AlbumEntry
  | [], _, _ => []
  | e :: rest, cid, g =>
    if e.id = cid then g e :: rest else e :: updateFirstEntry rest cid g

/-- An update command on the `users` collection: apply `f` to the `album`
array of the first document satisfying the query `p` (MongoDB `update` /
`update_one` affect a single document); no match, no effect. All updates
issued by the source only touch the `album` field. -/
def updateAlbumWhere (p : UserDoc → Prop) [DecidablePred p]
    (f : List AlbumEntry → List AlbumEntry) : UsersDB → UsersDB
  | [] => []
  | u :: rest =>
    if p u then { u with album := f u.album } :: rest
    else u :: updateAlbumWhere p f rest

/-- Ordering used by the `$sort: {'id': 1}` modifier: ascending card id. -/
def albumLe (a b : AlbumEntry) : Prop := a.id ≤ b.id

instance : DecidableRel albumLe := fun a b =>
  inferInstanceAs (Decidable (a.id ≤ b.id))

instance : IsTotal AlbumEntry albumLe := ⟨fun a b => le_total a.id b.id⟩

instance : IsTrans AlbumEntry albumLe := ⟨fun _ _ _ h h' => le_trans h h'⟩

/-- The `$push ... $sort {'id': 1}` modifier sorts the whole array
ascending by card id after appending. -/
def sortAlbum (l : List AlbumEntry) : List AlbumEntry :=
  List.insertionSort albumLe l

/-- The "user does not have this card" branch of `add_to_user_album`:
`update_one({'_id': user_id}, {'$push': {'album': {'$each': [new_card],
'$sort': {'id': 1}}}})`. -/
def pushNewCard (db : UsersDB) (uid : String) (cid : Int) (now : Int) :
    UsersDB :=
  updateAlbumWhere (fun u => u._id = uid)
    (fun a => sortAlbum (a ++ [⟨cid, 1, 0, now⟩])) db

/-- `$inc` of one count on the positionally matched album element. -/
def bumpEntry (idolized : Bool) (e : AlbumEntry) : AlbumEntry :=
  if idolized then { e with idolized_count := e.idolized_count + 1 }
  else { e with unidolized_count := e.unidolized_count + 1 }

/-- The "user has this card" branch of `add_to_user_album`:
`update({'_id': user_id, 'album.id': card_id}, {'$inc': {'album.$.…_count': 1}})`.
The query also requires a matching album element. -/
def incCardCount (db : UsersDB) (uid : String) (cid : Int) (idolized : Bool) :
    UsersDB :=
  updateAlbumWhere (fun u => u._id = uid ∧ (findEntry u.album cid).isSome = true)
    (fun a => updateFirstEntry a cid (bumpEntry idolized)) db

/-- Result of `add_to_user_album`: the `users` collection at return (or at
raise time) and whether the call raised. -/
structure AddOutcome where
  db : UsersDB
  raised : Bool
deriving DecidableEq, Repr

/-- `UserController.add_to_user_album`: for each card in order, push a
fresh entry when `_user_has_card` says the user lacks it, else `$inc`
the matching count. When `_user_has_card` raises (user absent), the
loop aborts with the store as it stood. `clock i` is the millisecond
wall clock read at the i-th remaining iteration. -/
def add_to_user_album (db : UsersDB) (uid : String) (new_cards : List Int)
    (idolized : Bool) (clock : Nat → Int) : AddOutcome :=
  match new_cards with
  | [] => ⟨db, false⟩
  | cid :: rest =>
    match user_has_card db uid cid with
    | none => ⟨db, true⟩
    | some has =>
      if has then
        add_to_user_album (incCardCount db uid cid idolized) uid rest idolized
          (fun i => clock (i + 1))
      else
        add_to_user_album (pushNewCard db uid cid (clock 0)) uid rest idolized
          (fun i => clock (i + 1))

/-- `UserController.remove_from_user_album`: look the entry up via
`get_card_from_album`; if absent return `False` with the store
untouched; otherwise compute both new counts (decrementing the selected
one by `count`) and `$set` them on the positionally matched element,
returning `True`. -/
def remove_from_user_album (db : UsersDB) (uid : String) (cid : Int)
    (idolized : Bool) (count : Int) : Bool × UsersDB :=
  match get_card_from_album db uid cid with
  | none => (false, db)
  | some card =>
    let new_unidolized_count := card.unidolized_count
    let new_idolized_count := card.idolized_count
    let new_unidolized_count :=
      if idolized then new_unidolized_count
      else new_unidolized_count - count
    let new_idolized_count :=
      if idolized then new_idolized_count - count
      else new_idolized_count
    (true,
      updateAlbumWhere
        (fun u => u._id = uid ∧ (findEntry u.album cid).isSome = true)
        (fun a => updateFirstEntry a cid
          (fun e => { e with
            unidolized_count := new_unidolized_count,
            idolized_count := new_idolized_count }))
        db)

/-! ### Document-layer lemmas -/

theorem Doc.getField_setField (d : Doc) (k : String) (v : Value) (k' : String) :
    (d.setField k v).getField k' = if k = k' then some v else d.getField k' := by
  induction d with
  | nil => rfl
  | cons kv rest ih =>
    obtain ⟨k₀, v₀⟩ := kv
    by_cases h0 : k₀ = k
    · subst h0
      simp only [Doc.setField, if_pos rfl]
      by_cases h : k₀ = k'
      · simp [Doc.getField, h]
      · simp [Doc.getField, h]
    · have hs : Doc.setField ((k₀, v₀) :: rest) k v =
          (k₀, v₀) :: Doc.setField rest k v := by
        simp [Doc.setField, h0]
      rw [hs]
      by_cases h1 : k₀ = k'
      · have h2 : ¬ k = k' := fun he => h0 (h1 ▸ he.symm ▸ rfl)
        simp [Doc.getField, h1, h2]
      · simp [Doc.getField, h1, ih]

theorem Doc.getField_eq_none_of_not_mem_keys {d : Doc} {k : String}
    (h : k ∉ d.keys) : d.getField k = none := by
  induction d with
  | nil => rfl
  | cons kv rest ih =>
    obtain ⟨k₀, v₀⟩ := kv
    have hcons : Doc.keys ((k₀, v₀) :: rest) = k₀ :: Doc.keys rest := rfl
    rw [hcons, List.mem_cons] at h
    push_neg at h
    have h1 : ¬ k₀ = k := fun he => h.1 he.symm
    simp [Doc.getField, h1, ih h.2]

theorem Doc.nodupKeys_cons {k₀ : String} {v₀ : Value} {rest : Doc} :
    Doc.NodupKeys ((k₀, v₀) :: rest) ↔ k₀ ∉ Doc.keys rest ∧ Doc.NodupKeys rest := by
  unfold Doc.NodupKeys
  exact List.nodup_cons

theorem Doc.keys_setField (d : Doc) (k : String) (v : Value) :
    (d.setField k v).keys = if k ∈ d.keys then d.keys else d.keys ++ [k] := by
  induction d with
  | nil => simp [Doc.setField, Doc.keys]
  | cons kv rest ih =>
    obtain ⟨k₀, v₀⟩ := kv
    by_cases h0 : k₀ = k
    · subst h0
      simp [Doc.setField, Doc.keys]
    · have hs : Doc.setField ((k₀, v₀) :: rest) k v =
          (k₀, v₀) :: Doc.setField rest k v := by
        simp [Doc.setField, h0]
      have hcons : ∀ (w : Value) (l : Doc),
          Doc.keys ((k₀, w) :: l) = k₀ :: Doc.keys l := fun _ _ => rfl
      rw [hs, hcons, hcons, ih]
      have hk : ¬ k = k₀ := fun he => h0 he.symm
      by_cases hm : k ∈ Doc.keys rest
      · simp [List.mem_cons, hm, hk]
      · simp [List.mem_cons, hm, hk]

theorem Doc.nodupKeys_setField {d : Doc} (k : String) (v : Value)
    (h : d.NodupKeys) : (d.setField k v).NodupKeys := by
  unfold Doc.NodupKeys at h ⊢
  rw [Doc.keys_setField]
  by_cases hm : k ∈ d.keys
  · simpa [hm] using h
  · rw [if_neg hm]
    simp [List.nodup_append, h, hm]

theorem Doc.keys_removeField (d : Doc) (k : String) :
    (d.removeField k).keys = d.keys.erase k := by
  induction d with
  | nil => rfl
  | cons kv rest ih =>
    obtain ⟨k₀, v₀⟩ := kv
    have hcons : ∀ (l : Doc), Doc.keys ((k₀, v₀) :: l) = k₀ :: Doc.keys l :=
      fun _ => rfl
    by_cases h0 : k₀ = k
    · subst h0
      simp [Doc.removeField, Doc.keys, List.erase_cons]
    · have hr : Doc.removeField ((k₀, v₀) :: rest) k =
          (k₀, v₀) :: Doc.removeField rest k := by
        simp [Doc.removeField, h0]
      rw [hr, hcons, hcons, List.erase_cons, ih]
      simp [h0]

theorem Doc.nodupKeys_removeField {d : Doc} (k : String)
    (h : d.NodupKeys) : (d.removeField k).NodupKeys := by
  unfold Doc.NodupKeys at h ⊢
  rw [Doc.keys_removeField]
  exact h.erase k

theorem Doc.getField_removeField_ne {d : Doc} {k k' : String} (h : ¬ k' = k) :
    (d.removeField k).getField k' = d.getField k' := by
  induction d with
  | nil => rfl
  | cons kv rest ih =>
    obtain ⟨k₀, v₀⟩ := kv
    by_cases h0 : k₀ = k
    · subst h0
      have h1 : ¬ k₀ = k' := fun he => h (he.symm)
      simp [Doc.removeField, Doc.getField, h1]
    · have hr : Doc.removeField ((k₀, v₀) :: rest) k =
          (k₀, v₀) :: Doc.removeField rest k := by
        simp [Doc.removeField, h0]
      rw [hr]
      by_cases h1 : k₀ = k'
      · simp [Doc.getField, h1]
      · simp [Doc.getField, h1, ih]

/-- `$set` lookup characterisation on a well-formed update document:
fields named in `s` take `s`'s value, the rest keep `d`'s. -/
theorem Doc.getField_applySet (d s : Doc) (hs : s.NodupKeys) (k : String) :
    (d.applySet s).getField k = (s.getField k).or (d.getField k) := by
  induction s generalizing d with
  | nil => simp [Doc.applySet, Doc.getField]
  | cons kv rest ih =>
    obtain ⟨k₀, v₀⟩ := kv
    rw [Doc.nodupKeys_cons] at hs
    have step : Doc.applySet d ((k₀, v₀) :: rest) =
        Doc.applySet (d.setField k₀ v₀) rest := by
      simp [Doc.applySet]
    rw [step, ih _ hs.2]
    by_cases h : k₀ = k
    · subst h
      rw [Doc.getField_eq_none_of_not_mem_keys hs.1]
      simp [Doc.getField, Doc.getField_setField]
    · simp [Doc.getField, h, Doc.getField_setField]


/-! ### User-repository lemmas -/

theorem find_user_decomp {db : UsersDB} {uid : String} {u : UserDoc}
    (h : find_user db uid = some u) :
    ∃ s t, db = s ++ u :: t ∧ (∀ v ∈ s, ¬ v._id = uid) ∧ u._id = uid := by
  induction db with
  | nil => simp [find_user] at h
  | cons u₀ rest ih =>
    by_cases h0 : u₀._id = uid
    · rw [find_user, if_pos h0] at h
      obtain rfl := Option.some_injective _ h
      exact ⟨[], rest, rfl, by simp, h0⟩
    · rw [find_user, if_neg h0] at h
      obtain ⟨s, t, hdb, hs, hu⟩ := ih h
      exact ⟨u₀ :: s, t, by simp [hdb], by simpa [h0] using hs, hu⟩

theorem find_user_append {s t : UsersDB} {uid : String} {u : UserDoc}
    (hs : ∀ v ∈ s, ¬ v._id = uid) (hu : u._id = uid) :
    find_user (s ++ u :: t) uid = some u := by
  induction s with
  | nil => simp [find_user, hu]
  | cons v rest ih =>
    have hv : ¬ v._id = uid := hs v (by simp)
    rw [List.cons_append, find_user, if_neg hv]
    exact ih (fun w hw => hs w (by simp [hw]))

theorem find_user_eq_none {db : UsersDB} {uid : String} :
    find_user db uid = none ↔ ∀ v ∈ db, ¬ v._id = uid := by
  induction db with
  | nil => simp [find_user]
  | cons u₀ rest ih =>
    by_cases h0 : u₀._id = uid
    · simp [find_user, h0]
    · simp [find_user, h0, ih]

theorem updateAlbumWhere_decomp (p : UserDoc → Prop) [DecidablePred p]
    (f : List AlbumEntry → List AlbumEntry) {s t : UsersDB} {u : UserDoc}
    (hs : ∀ v ∈ s, ¬ p v) (hu : p u) :
    updateAlbumWhere p f (s ++ u :: t) = s ++ { u with album := f u.album } :: t := by
  induction s with
  | nil => simp [updateAlbumWhere, hu]
  | cons v rest ih =>
    have hv : ¬ p v := hs v (by simp)
    rw [List.cons_append, updateAlbumWhere, if_neg hv,
      ih (fun w hw => hs w (by simp [hw])), List.cons_append]

theorem findEntry_decomp {l : List AlbumEntry} {cid : Int} {e : AlbumEntry}
    (h : findEntry l cid = some e) :
    ∃ s t, l = s ++ e :: t ∧ (∀ x ∈ s, ¬ x.id = cid) ∧ e.id = cid := by
  induction l with
  | nil => simp [findEntry] at h
  | cons e₀ rest ih =>
    by_cases h0 : e₀.id = cid
    · rw [findEntry, if_pos h0] at h
      obtain rfl := Option.some_injective _ h
      exact ⟨[], rest, rfl, by simp, h0⟩
    · rw [findEntry, if_neg h0] at h
      obtain ⟨s, t, hl, hs, he⟩ := ih h
      exact ⟨e₀ :: s, t, by simp [hl], by simpa [h0] using hs, he⟩

theorem findEntry_append {s t : List AlbumEntry} {cid : Int} {e : AlbumEntry}
    (hs : ∀ x ∈ s, ¬ x.id = cid) (he : e.id = cid) :
    findEntry (s ++ e :: t) cid = some e := by
  induction s with
  | nil => simp [findEntry, he]
  | cons x rest ih =>
    have hx : ¬ x.id = cid := hs x (by simp)
    rw [List.cons_append, findEntry, if_neg hx]
    exact ih (fun y hy => hs y (by simp [hy]))

theorem findEntry_eq_none {l : List AlbumEntry} {cid : Int} :
    findEntry l cid = none ↔ ∀ x ∈ l, ¬ x.id = cid := by
  induction l with
  | nil => simp [findEntry]
  | cons e₀ rest ih =>
    by_cases h0 : e₀.id = cid
    · simp [findEntry, h0]
    · simp [findEntry, h0, ih]

theorem updateFirstEntry_decomp {s t : List AlbumEntry} {cid : Int}
    (g : AlbumEntry → AlbumEntry) (hs : ∀ x ∈ s, ¬ x.id = cid) {e : AlbumEntry}
    (he : e.id = cid) :
    updateFirstEntry (s ++ e :: t) cid g = s ++ g e :: t := by
  induction s with
  | nil => simp [updateFirstEntry, he]
  | cons x rest ih =>
    have hx : ¬ x.id = cid := hs x (by simp)
    rw [List.cons_append, updateFirstEntry, if_neg hx,
      ih (fun y hy => hs y (by simp [hy])), List.cons_append]

theorem find_user_updateAlbumWhere (p : UserDoc → Prop) [DecidablePred p]
    (f : List AlbumEntry → List AlbumEntry) {db : UsersDB} {uid : String}
    {u : UserDoc} (hfind : find_user db uid = some u) (hpu : p u)
    (hp : ∀ v, p v → v._id = uid) :
    find_user (updateAlbumWhere p f db) uid = some { u with album := f u.album } := by
  obtain ⟨s, t, rfl, hs, hu⟩ := find_user_decomp hfind
  rw [updateAlbumWhere_decomp p f (fun v hv hpv => hs v hv (hp v hpv)) hpu]
  exact find_user_append (fun v hv hpv => hs v hv hpv) hu

theorem sortAlbum_sorted (l : List AlbumEntry) :
    List.Sorted albumLe (sortAlbum l) :=
  List.sorted_insertionSort albumLe l

theorem sortAlbum_perm (l : List AlbumEntry) :
    List.Perm (sortAlbum l) l :=
  List.perm_insertionSort albumLe l

theorem mem_sortAlbum {e : AlbumEntry} {l : List AlbumEntry} :
    e ∈ sortAlbum l ↔ e ∈ l :=
  (sortAlbum_perm l).mem_iff

theorem bumpEntry_time (idolized : Bool) (e : AlbumEntry) :
    (bumpEntry idolized e).time_aquired = e.time_aquired := by
  cases idolized <;> rfl

/-- Per-user view of all acquisition timestamps. -/
def timesView (db : UsersDB) : List (List Int) :=
  db.map (fun u => u.album.map (fun e => e.time_aquired))

theorem map_time_updateFirstEntry (a : List AlbumEntry) (cid : Int)
    (g : AlbumEntry → AlbumEntry)
    (hg : ∀ e, (g e).time_aquired = e.time_aquired) :
    (updateFirstEntry a cid g).map (fun e => e.time_aquired) =
      a.map (fun e => e.time_aquired) := by
  induction a with
  | nil => rfl
  | cons e rest ih =>
    by_cases h : e.id = cid
    · simp [updateFirstEntry, h, hg]
    · simp [updateFirstEntry, h, ih]

theorem timesView_updateAlbumWhere (p : UserDoc → Prop) [DecidablePred p]
    (f : List AlbumEntry → List AlbumEntry) (db : UsersDB)
    (hf : ∀ a, (f a).map (fun e => e.time_aquired) =
      a.map (fun e => e.time_aquired)) :
    timesView (updateAlbumWhere p f db) = timesView db := by
  induction db with
  | nil => rfl
  | cons u rest ih =>
    by_cases h : p u
    · simp [updateAlbumWhere, h, timesView, hf]
    · simp only [updateAlbumWhere, if_neg h]
      simp [timesView] at ih ⊢
      exact ih

/-! ### Card-collection lemmas -/

theorem findCard_eq_none {coll : CardsDB} {idv : Value} :
    findCard coll idv = none ↔ ∀ d ∈ coll, ¬ d.getField "_id" = some idv := by
  induction coll with
  | nil => simp [findCard]
  | cons d rest ih =>
    by_cases h0 : d.getField "_id" = some idv
    · simp [findCard, h0]
    · simp [findCard, h0, ih]

theorem findCard_decomp {coll : CardsDB} {idv : Value} {old : Doc}
    (h : findCard coll idv = some old) :
    ∃ s t, coll = s ++ old :: t ∧ (∀ d ∈ s, ¬ d.getField "_id" = some idv)
      ∧ old.getField "_id" = some idv := by
  induction coll with
  | nil => simp [findCard] at h
  | cons d rest ih =>
    by_cases h0 : d.getField "_id" = some idv
    · rw [findCard, if_pos h0] at h
      obtain rfl := Option.some_injective _ h
      exact ⟨[], rest, rfl, by simp, h0⟩
    · rw [findCard, if_neg h0] at h
      obtain ⟨s, t, hc, hs, hold⟩ := ih h
      exact ⟨d :: s, t, by simp [hc], by simpa [h0] using hs, hold⟩

theorem findCard_append {s t : CardsDB} {idv : Value} {d : Doc}
    (hs : ∀ x ∈ s, ¬ x.getField "_id" = some idv)
    (hd : d.getField "_id" = some idv) :
    findCard (s ++ d :: t) idv = some d := by
  induction s with
  | nil => simp [findCard, hd]
  | cons x rest ih =>
    have hx : ¬ x.getField "_id" = some idv := hs x (by simp)
    rw [List.cons_append, findCard, if_neg hx]
    exact ih (fun y hy => hs y (by simp [hy]))

theorem update_set_upsert_of_none {coll : CardsDB} {idv : Value} (sd : Doc)
    (h : findCard coll idv = none) :
    update_set_upsert coll idv sd = coll ++ [Doc.applySet [("_id", idv)] sd] := by
  induction coll with
  | nil => rfl
  | cons d rest ih =>
    rw [findCard_eq_none] at h
    have hd : ¬ d.getField "_id" = some idv := h d (by simp)
    rw [update_set_upsert, if_neg hd, List.cons_append,
      ih (findCard_eq_none.mpr (fun x hx => h x (by simp [hx])))]

theorem update_set_upsert_decomp {s t : CardsDB} {idv : Value} (sd : Doc)
    (hs : ∀ x ∈ s, ¬ x.getField "_id" = some idv) {old : Doc}
    (hold : old.getField "_id" = some idv) :
    update_set_upsert (s ++ old :: t) idv sd = s ++ Doc.applySet old sd :: t := by
  induction s with
  | nil => simp [update_set_upsert, hold]
  | cons x rest ih =>
    have hx : ¬ x.getField "_id" = some idv := hs x (by simp)
    rw [List.cons_append, update_set_upsert, if_neg hx,
      ih (fun y hy => hs y (by simp [hy])), List.cons_append]

/-- The rewritten card (`card['_id'] = card['id']; del card['id']`) keeps
`_id` bound to the original `id` value. -/
theorem rewritten_card_getField_id (card : Doc) (idv : Value) :
    ((card.setField "_id" idv).removeField "id").getField "_id" = some idv := by
  rw [Doc.getField_removeField_ne (by decide)]
  rw [Doc.getField_setField]
  simp

theorem sampleByTake_spec : SampleSpec sampleByTake :=
  fun pool n => ⟨(List.take_sublist n pool).subperm, List.length_take n pool⟩

/-! ### Claims -/

/-- C1 (counterexample): re-upserting a card under the same id does NOT
fully replace the stored document: the source issues a `$set` update, so
the field `a` written by the first upsert survives the second upsert even
though the second card value does not set `a`. -/
theorem upsert_card_counterexample :
    upsert_card [] [("id", Value.vInt 1), ("a", Value.vInt 5)] =
      some [[("_id", Value.vInt 1), ("a", Value.vInt 5)]]
    ∧ upsert_card [[("_id", Value.vInt 1), ("a", Value.vInt 5)]]
        [("id", Value.vInt 1), ("b", Value.vInt 7)] =
      some [[("_id", Value.vInt 1), ("a", Value.vInt 5), ("b", Value.vInt 7)]]
    ∧ Doc.getField
        [("_id", Value.vInt 1), ("a", Value.vInt 5), ("b", Value.vInt 7)] "a" =
      some (Value.vInt 5) :=
  ⟨rfl, rfl, rfl⟩

/-- C1 (amended): `upsert_card` writes keyed by the card's `id` value,
creating the catalog entry if absent; if present, every field set by the
new card value overwrites the stored field, while stored fields not set
by the new card survive (`$set` field-merge, not full replacement). -/
theorem upsert_card_merge_semantics (coll : CardsDB) (card : Doc) (idv : Value)
    (hid : card.getField "id" = some idv) (hnd : card.NodupKeys) :
    (findCard coll idv = none →
      upsert_card coll card = some (coll ++
        [Doc.applySet [("_id", idv)] ((card.setField "_id" idv).removeField "id")])
      ∧ ∀ k, (Doc.applySet [("_id", idv)]
          ((card.setField "_id" idv).removeField "id")).getField k =
          ((card.setField "_id" idv).removeField "id").getField k)
    ∧ (∀ old, findCard coll idv = some old →
      ∃ coll', upsert_card coll card = some coll'
        ∧ findCard coll' idv =
            some (Doc.applySet old ((card.setField "_id" idv).removeField "id"))
        ∧ ∀ k, (Doc.applySet old
            ((card.setField "_id" idv).removeField "id")).getField k =
            (((card.setField "_id" idv).removeField "id").getField k).or
              (old.getField k)) := by
  have hnd' : ((card.setField "_id" idv).removeField "id").NodupKeys :=
    Doc.nodupKeys_removeField _ (Doc.nodupKeys_setField _ _ hnd)
  have hrun : upsert_card coll card =
      some (update_set_upsert coll idv
        ((card.setField "_id" idv).removeField "id")) := by
    simp [upsert_card, upsert_card_run, hid]
  constructor
  · intro hnone
    refine ⟨?_, ?_⟩
    · rw [hrun, update_set_upsert_of_none _ hnone]
    · intro k
      rw [Doc.getField_applySet _ _ hnd' k]
      by_cases hk : k = "_id"
      · subst hk
        rw [rewritten_card_getField_id]
        rfl
      · have hne : ¬ "_id" = k := fun h => hk h.symm
        have hbase : Doc.getField [("_id", idv)] k = none := by
          simp only [Doc.getField]
          rw [if_neg hne]
        rw [hbase, Option.or_none]
  · intro old hold
    obtain ⟨s, t, rfl, hs, hid'⟩ := findCard_decomp hold
    refine ⟨s ++ Doc.applySet old
      ((card.setField "_id" idv).removeField "id") :: t, ?_, ?_, ?_⟩
    · rw [hrun, update_set_upsert_decomp _ hs hid']
    · refine findCard_append hs ?_
      rw [Doc.getField_applySet _ _ hnd' _, rewritten_card_getField_id]
      rfl
    · intro k
      exact Doc.getField_applySet _ _ hnd' k

/-- C1 (witness for the amended theorem, creation case). -/
theorem upsert_card_merge_semantics_witness :
    upsert_card [] [("id", Value.vInt 1), ("a", Value.vInt 5)] =
      some ([] ++ [Doc.applySet [("_id", Value.vInt 1)]
        ((Doc.removeField
          (Doc.setField [("id", Value.vInt 1), ("a", Value.vInt 5)]
            "_id" (Value.vInt 1)) "id"))]) :=
  ((upsert_card_merge_semantics [] [("id", Value.vInt 1), ("a", Value.vInt 5)]
    (Value.vInt 1) rfl (by unfold Doc.NodupKeys; decide)).1 rfl).1

/-- C10: the caller-visible `card` argument is unchanged by
`upsert_card`: the key rewrite happens on the deep copy, and the value
the caller observes after the call is exactly the one passed in. -/
theorem upsert_card_preserves_input (coll : CardsDB) (card : Doc)
    (r : CardsDB × Doc) (h : upsert_card_run coll card = some r) :
    r.2 = card := by
  simp only [upsert_card_run] at h
  cases hg : Doc.getField card "id" with
  | none => rw [hg] at h; simp at h
  | some idv =>
    rw [hg] at h
    obtain rfl := Option.some_injective _ h
    rfl

/-- C10 witness. -/
theorem upsert_card_preserves_input_witness :
    (([[("_id", Value.vInt 1)]], [("id", Value.vInt 1)]) : CardsDB × Doc).2 =
      [("id", Value.vInt 1)] :=
  upsert_card_preserves_input [] [("id", Value.vInt 1)]
    ([[("_id", Value.vInt 1)]], [("id", Value.vInt 1)]) rfl

/-- A catalog of 101 cards, all matching a trivially-true filter. -/
def coll101 : CardsDB :=
  (List.range 101).map (fun k => [("_id", Value.vInt k)])

/-- C5 (counterexample): with 101 matching cards and `count = 200`, the
number of matches (101) is smaller than `count`, yet `get_random_cards`
returns only 100 cards — the `to_list(length=100)` cursor read truncates
the result, so not all matches are returned. `sampleByTake` is an
admissible `$sample` oracle by `sampleByTake_spec`. -/
theorem get_random_cap_counterexample :
    SampleSpec sampleByTake
    ∧ (coll101.filter (fun _ => true)).length = 101
    ∧ (get_random_cards coll101 (fun _ => true) 200 sampleByTake).length = 100 :=
  ⟨sampleByTake_spec, rfl, rfl⟩

/-- C5 (amended): under the `$sample` contract, `get_random_cards`
returns at most `min count 100` cards, every returned card matches the
filter and comes from the catalog, and when fewer than `count` cards
match AND there are at most 100 matches, the result is a permutation of
(contains exactly) all the matches; the cursor read caps the result at
100 documents. -/
theorem get_random_cards_spec (coll : CardsDB) (filter : Doc → Bool)
    (count : Nat) (sample : List Doc → Nat → List Doc)
    (hs : SampleSpec sample) :
    (get_random_cards coll filter count sample).length ≤ count
    ∧ (get_random_cards coll filter count sample).length ≤ 100
    ∧ (∀ d ∈ get_random_cards coll filter count sample,
        filter d = true ∧ d ∈ coll)
    ∧ ((coll.filter filter).length < count →
        (coll.filter filter).length ≤ 100 →
        List.Perm (get_random_cards coll filter count sample)
          (coll.filter filter)) := by
  obtain ⟨hsub, hlen⟩ := hs (coll.filter filter) count
  have hres : (get_random_cards coll filter count sample).length =
      min 100 (sample (coll.filter filter) count).length := by
    simp [get_random_cards, List.length_take]
  refine ⟨?_, ?_, ?_, ?_⟩
  · rw [hres, hlen]; omega
  · rw [hres]; omega
  · intro d hd
    have h1 : d ∈ sample (coll.filter filter) count := List.mem_of_mem_take hd
    have h2 : d ∈ coll.filter filter := hsub.subset h1
    rw [List.mem_filter] at h2
    exact ⟨h2.2, h2.1⟩
  · intro hlt hle
    have hlen' : (coll.filter filter).length ≤
        (sample (coll.filter filter) count).length := by
      rw [hlen]; omega
    have hperm : List.Perm (sample (coll.filter filter) count)
        (coll.filter filter) := hsub.perm_of_length_le hlen'
    have htake : (sample (coll.filter filter) count).take 100 =
        sample (coll.filter filter) count :=
      List.take_of_length_le (by rw [hlen]; omega)
    rw [get_random_cards, htake]
    exact hperm

/-- C5 (witness for the amended theorem). -/
theorem get_random_cards_spec_witness :
    (get_random_cards [[("_id", Value.vInt 1)]] (fun _ => true) 5
      sampleByTake).length ≤ 5 :=
  (get_random_cards_spec [[("_id", Value.vInt 1)]] (fun _ => true) 5
    sampleByTake sampleByTake_spec).1

/-- C7: removing a card the user's album has no entry for returns
`false` and leaves the whole `users` collection exactly as it was. -/
theorem remove_missing_entry_is_noop (db : UsersDB) (uid : String) (cid : Int)
    (idolized : Bool) (count : Int)
    (h : get_card_from_album db uid cid = none) :
    remove_from_user_album db uid cid idolized count = (false, db) := by
  simp only [remove_from_user_album, h]

/-- C7 witness. -/
theorem remove_missing_entry_is_noop_witness :
    remove_from_user_album [⟨"u", []⟩] "u" 3 false 1 = (false, [⟨"u", []⟩]) :=
  remove_missing_entry_is_noop [⟨"u", []⟩] "u" 3 false 1 rfl

/-- C9: when no user document with the given id exists,
`add_to_user_album` on a non-empty card list raises (`_user_has_card`
calls `.keys()` on the `None` returned by `find_one`) with the store
unchanged: no user is created and no album entry is written. -/
theorem add_missing_user_raises (db : UsersDB) (uid : String) (cid : Int)
    (rest : List Int) (idolized : Bool) (clock : Nat → Int)
    (h : find_user db uid = none) :
    add_to_user_album db uid (cid :: rest) idolized clock = ⟨db, true⟩ := by
  simp only [add_to_user_album, user_has_card, h]

/-- C9 witness. -/
theorem add_missing_user_raises_witness :
    add_to_user_album [] "u" [1] false (fun _ => 0) = ⟨[], true⟩ :=
  add_missing_user_raises [] "u" 1 [] false (fun _ => 0) rfl

/-- C8: `get_user_album` returns the album of an existing user, the
empty sequence for a missing user, and the empty sequence for a freshly
inserted user — so a nonexistent user and a freshly created one are
indistinguishable through it. -/
theorem get_album_total_spec :
    (∀ db uid u, find_user db uid = some u → get_user_album db uid = u.album)
    ∧ (∀ db uid, find_user db uid = none → get_user_album db uid = [])
    ∧ (∀ db uid db', find_user db uid = none → insert_user db uid = some db' →
        get_user_album db' uid = [] ∧ get_user_album db uid = []) := by
  refine ⟨fun db uid u h => ?_, fun db uid h => ?_, fun db uid db' h h' => ?_⟩
  · simp [get_user_album, h]
  · simp [get_user_album, h]
  · rw [insert_user, h] at h'
    obtain rfl := Option.some_injective _ h'
    have hfind : find_user (db ++ [⟨uid, []⟩]) uid = some ⟨uid, []⟩ :=
      find_user_append (t := []) (find_user_eq_none.mp h) rfl
    exact ⟨by simp [get_user_album, hfind], by simp [get_user_album, h]⟩

/-- C8 witness. -/
theorem get_album_total_spec_witness :
    get_user_album [] "u" = [] :=
  get_album_total_spec.2.1 [] "u" rfl

/-- C2: when the user's album has an entry for the card (decomposed at
its first occurrence), `remove_from_user_album` returns `true` and
rewrites exactly that entry, setting the selected count to its old value
minus `count` (plain integer subtraction: no clamping, possibly
negative) and leaving the other count, the id, the timestamp, and the
rest of the album unchanged — in particular the entry is not removed. -/
theorem remove_decrements_unclamped (db : UsersDB) (uid : String) (cid : Int)
    (idolized : Bool) (count : Int) (u : UserDoc) (pre post : List AlbumEntry)
    (e : AlbumEntry) (hu : find_user db uid = some u)
    (halb : u.album = pre ++ e :: post) (hpre : ∀ x ∈ pre, ¬ x.id = cid)
    (he : e.id = cid) :
    ∃ db', remove_from_user_album db uid cid idolized count = (true, db')
      ∧ find_user db' uid = some { u with album := pre ++
          (if idolized then { e with idolized_count := e.idolized_count - count }
           else { e with unidolized_count := e.unidolized_count - count })
          :: post } := by
  have hfe : findEntry u.album cid = some e := by
    rw [halb]; exact findEntry_append hpre he
  have hget : get_card_from_album db uid cid = some e := by
    simp [get_card_from_album, hu, hfe]
  obtain ⟨s, t, hdb, hs, hid⟩ := find_user_decomp hu
  have hres : remove_from_user_album db uid cid idolized count =
      (true, updateAlbumWhere
        (fun v => v._id = uid ∧ (findEntry v.album cid).isSome = true)
        (fun a => updateFirstEntry a cid (fun x => { x with
          unidolized_count :=
            if idolized then e.unidolized_count else e.unidolized_count - count,
          idolized_count :=
            if idolized then e.idolized_count - count else e.idolized_count }))
        db) := by
    simp only [remove_from_user_album, hget]
  have hfu := find_user_updateAlbumWhere
      (fun v => v._id = uid ∧ (findEntry v.album cid).isSome = true)
      (fun a => updateFirstEntry a cid (fun x => { x with
        unidolized_count :=
          if idolized then e.unidolized_count else e.unidolized_count - count,
        idolized_count :=
          if idolized then e.idolized_count - count else e.idolized_count }))
      hu ⟨hid, by simp [hfe]⟩ (fun v hv => hv.1)
  refine ⟨_, hres, ?_⟩
  beta_reduce at hfu
  rw [halb, updateFirstEntry_decomp _ hpre he] at hfu
  rw [hfu]
  cases idolized <;> simp

/-- C2 witness: removing 5 unidolized copies from an entry holding 1
drives the count to −4 and keeps the entry. -/
theorem remove_decrements_unclamped_witness :
    ∃ db', remove_from_user_album [⟨"u", [⟨1, 1, 0, 0⟩]⟩] "u" 1 false 5 =
        (true, db')
      ∧ find_user db' "u" = some ⟨"u", [⟨1, -4, 0, 0⟩]⟩ := by
  have h := remove_decrements_unclamped [⟨"u", [⟨1, 1, 0, 0⟩]⟩] "u" 1 false 5
    ⟨"u", [⟨1, 1, 0, 0⟩]⟩ [] [] ⟨1, 1, 0, 0⟩ rfl rfl (by simp) rfl
  simpa using h

/-- C3: when the user exists and has no album entry for the head card,
`add_to_user_album` pushes a fresh entry with `unidolized_count = 1` and
`idolized_count = 0` whatever the `idolized` argument is, stamped with
the wall clock read at this iteration, re-sorts the album ascending by
card id, and continues the batch from the updated store. -/
theorem add_new_card_creates_sorted_entry (db : UsersDB) (uid : String)
    (cid : Int) (rest : List Int) (idolized : Bool) (clock : Nat → Int)
    (u : UserDoc) (hu : find_user db uid = some u)
    (hno : findEntry u.album cid = none) :
    add_to_user_album db uid (cid :: rest) idolized clock =
      add_to_user_album (pushNewCard db uid cid (clock 0)) uid rest idolized
        (fun i => clock (i + 1))
    ∧ ∃ u₂, find_user (pushNewCard db uid cid (clock 0)) uid = some u₂
      ∧ u₂.album = sortAlbum (u.album ++ [⟨cid, 1, 0, clock 0⟩])
      ∧ (⟨cid, 1, 0, clock 0⟩ : AlbumEntry) ∈ u₂.album
      ∧ List.Sorted albumLe u₂.album := by
  have hstep : add_to_user_album db uid (cid :: rest) idolized clock =
      add_to_user_album (pushNewCard db uid cid (clock 0)) uid rest idolized
        (fun i => clock (i + 1)) := by
    simp [add_to_user_album, user_has_card, hu, hno]
  obtain ⟨s, t, hdb, hs, hid⟩ := find_user_decomp hu
  have hfu := find_user_updateAlbumWhere (fun v => v._id = uid)
    (fun a => sortAlbum (a ++ [⟨cid, 1, 0, clock 0⟩])) hu hid (fun v hv => hv)
  refine ⟨hstep, _, hfu, rfl, ?_, ?_⟩
  · exact mem_sortAlbum.mpr (by simp)
  · exact sortAlbum_sorted _

/-- C3 witness (note `idolized = true` still yields counts `(1, 0)`). -/
theorem add_new_card_creates_sorted_entry_witness :
    add_to_user_album [⟨"u", []⟩] "u" [7] true (fun _ => 99) =
      add_to_user_album (pushNewCard [⟨"u", []⟩] "u" 7 99) "u" [] true
        (fun _ => 99)
    ∧ ∃ u₂, find_user (pushNewCard [⟨"u", []⟩] "u" 7 99) "u" = some u₂
      ∧ u₂.album = sortAlbum ([] ++ [⟨7, 1, 0, 99⟩])
      ∧ (⟨7, 1, 0, 99⟩ : AlbumEntry) ∈ u₂.album
      ∧ List.Sorted albumLe u₂.album :=
  add_new_card_creates_sorted_entry [⟨"u", []⟩] "u" 7 [] true (fun _ => 99)
    ⟨"u", []⟩ rfl rfl

/-- C4: (i) when the user already has an album entry for the head card,
`add_to_user_album` rewrites exactly the first matching entry through
`bumpEntry` (adding 1 to `idolized_count` if `idolized`, else 1 to
`unidolized_count`), creating no second entry for that id, and continues
the batch; (ii) adding the same single card twice to a user with an
empty album leaves exactly the one entry `⟨cid, 2, 0, t⟩`. -/
theorem add_existing_card_increments :
    (∀ db uid cid rest idolized clock (u : UserDoc) (e : AlbumEntry),
      find_user db uid = some u → findEntry u.album cid = some e →
      add_to_user_album db uid (cid :: rest) idolized clock =
        add_to_user_album (incCardCount db uid cid idolized) uid rest idolized
          (fun i => clock (i + 1))
      ∧ ∃ pre post, u.album = pre ++ e :: post ∧ (∀ x ∈ pre, ¬ x.id = cid)
        ∧ find_user (incCardCount db uid cid idolized) uid =
            some { u with album := pre ++ bumpEntry idolized e :: post })
    ∧ (∀ db uid cid (clock₁ clock₂ : Nat → Int) (u : UserDoc),
      find_user db uid = some u → u.album = [] →
      ∃ u', find_user ((add_to_user_album
          ((add_to_user_album db uid [cid] false clock₁).db) uid [cid] false
          clock₂).db) uid = some u'
        ∧ u'.album = [⟨cid, 2, 0, clock₁ 0⟩]) := by
  constructor
  · intro db uid cid rest idolized clock u e hu he
    have hstep : add_to_user_album db uid (cid :: rest) idolized clock =
        add_to_user_album (incCardCount db uid cid idolized) uid rest idolized
          (fun i => clock (i + 1)) := by
      simp [add_to_user_album, user_has_card, hu, he]
    obtain ⟨pre, post, halb, hpre, heid⟩ := findEntry_decomp he
    obtain ⟨s, t, hdb, hs, hid⟩ := find_user_decomp hu
    have hfu := find_user_updateAlbumWhere
      (fun v => v._id = uid ∧ (findEntry v.album cid).isSome = true)
      (fun a => updateFirstEntry a cid (bumpEntry idolized))
      hu ⟨hid, by simp [he]⟩ (fun v hv => hv.1)
    refine ⟨hstep, pre, post, halb, hpre, ?_⟩
    beta_reduce at hfu
    rw [halb, updateFirstEntry_decomp _ hpre heid] at hfu
    simp only [incCardCount]
    rw [hfu]
  · intro db uid cid clock₁ clock₂ u hu halb
    obtain ⟨s, t, hdb, hs, hid⟩ := find_user_decomp hu
    have h1 : (add_to_user_album db uid [cid] false clock₁).db =
        pushNewCard db uid cid (clock₁ 0) := by
      simp [add_to_user_album, user_has_card, hu, halb, findEntry]
    have hfu1 := find_user_updateAlbumWhere (fun v => v._id = uid)
      (fun a => sortAlbum (a ++ [⟨cid, 1, 0, clock₁ 0⟩])) hu hid (fun v hv => hv)
    rw [halb] at hfu1
    beta_reduce at hfu1
    have hsort : sortAlbum ([] ++ [(⟨cid, 1, 0, clock₁ 0⟩ : AlbumEntry)]) =
        [⟨cid, 1, 0, clock₁ 0⟩] := rfl
    rw [hsort] at hfu1
    have h2 : (add_to_user_album (pushNewCard db uid cid (clock₁ 0)) uid [cid]
        false clock₂).db =
        incCardCount (pushNewCard db uid cid (clock₁ 0)) uid cid false := by
      simp [add_to_user_album, user_has_card, pushNewCard, hfu1, findEntry]
    have hfu2 := find_user_updateAlbumWhere
      (fun v => v._id = uid ∧ (findEntry v.album cid).isSome = true)
      (fun a => updateFirstEntry a cid (bumpEntry false))
      hfu1 ⟨hid, by simp [findEntry]⟩ (fun v hv => hv.1)
    rw [h1, h2]
    refine ⟨_, hfu2, ?_⟩
    norm_num [updateFirstEntry, bumpEntry]

/-- C4 witness (the double-add scenario). -/
theorem add_existing_card_increments_witness :
    ∃ u', find_user ((add_to_user_album
        ((add_to_user_album [⟨"u", []⟩] "u" [5] false (fun _ => 42)).db) "u"
        [5] false (fun _ => 43)).db) "u" = some u'
      ∧ u'.album = [⟨5, 2, 0, 42⟩] :=
  add_existing_card_increments.2 [⟨"u", []⟩] "u" 5 (fun _ => 42) (fun _ => 43)
    ⟨"u", []⟩ rfl rfl

/-- C6 (counterexample): the field set of a freshly created album entry
is `{id, unidolized_count, idolized_count, time_aquired}` — the source
spells the timestamp key `time_aquired`, so the claimed field
`time_acquired` is not among the stored keys. -/
theorem album_entry_field_name_counterexample :
    Doc.keys (new_card_doc 1 0) =
      ["id", "unidolized_count", "idolized_count", "time_aquired"]
    ∧ ¬ "time_acquired" ∈ Doc.keys (new_card_doc 1 0) :=
  ⟨rfl, by decide⟩

/-- C6 (amended): every album entry created by `add_to_user_album` has
the field set `{id, unidolized_count, idolized_count, time_aquired}`
(the source's spelling of the timestamp key), the created entry carries
the acquisition-time clock value in that field, and the increment path
taken on re-acquisition never changes any entry's stored timestamp. -/
theorem album_entry_fields_and_timestamp (cid now : Int) :
    Doc.keys (new_card_doc cid now) =
      ["id", "unidolized_count", "idolized_count", "time_aquired"]
    ∧ (AlbumEntry.mk cid 1 0 now).toDoc = new_card_doc cid now
    ∧ (AlbumEntry.mk cid 1 0 now).time_aquired = now
    ∧ ∀ db uid idolized,
        timesView (incCardCount db uid cid idolized) = timesView db := by
  refine ⟨rfl, rfl, rfl, fun db uid idolized => ?_⟩
  exact timesView_updateAlbumWhere _ _ db
    (fun a => map_time_updateFirstEntry a cid _ (bumpEntry_time idolized))
